/-
Verification of the Gomoku (Five-in-a-Row) board/rules engine in
`src/gomoku.py` against its natural-language specification.

The engine state (`GomokuGame`) holds a square board of string cells
("." empty, "X" black stone, "O" white stone), the current player
("black" / "white"), and a move counter.  Methods are shallowly
embedded: mutating methods become functions `Game → ... → Game × result`,
and read-only methods thread the state unchanged.  Python's guarded
board reads (`0 <= r < size and ... and board[r][c] == stone`) become
a boolean `matchStep` test; the `while True` scanning loop of
`check_winner` becomes a fuel-bounded recursion `scanDir` whose fuel
`size + 1` is proved sufficient (`scanDir_fuel_stable`).
-/
import Mathlib

namespace Gomoku

/-- `EMPTY = "."` from the source. -/
def EMPTY : String := "."

/-- `PLAYER_STONES = {"black": "X", "white": "O"}`: the display marker of
each player.  The source dictionary has exactly the two keys `"black"` and
`"white"`, and the engine only ever looks up `current_player`, which is
always one of the two. -/
def PLAYER_STONES (p : String) : String :=
  if p = "black" then "X" else "O"

/-- `create_board(size)`: a `size × size` grid filled with `EMPTY`. -/
def create_board (size : Nat) : List (List String) :=
  List.replicate size (List.replicate size EMPTY)

/-- The `MoveResult` dataclass: `winner: Optional[str] = None`,
`draw: bool = False`. -/
structure MoveResult where
  winner : Option String := none
  draw : Bool := false
deriving DecidableEq

/-- The mutable state of `GomokuGame`: `size`, `board`,
`current_player`, `moves_played`. -/
structure Game where
  size : Nat
  board : List (List String)
  current_player : String
  moves_played : Nat
deriving DecidableEq

/-- `GomokuGame.__init__(size)`: empty board, black to move, no moves. -/
def mkGame (size : Nat) : Game :=
  { size := size
    board := create_board size
    current_player := "black"
    moves_played := 0 }

/-- Reading `board[r][c]` (indices already known to be in range in the
source; out-of-range reads return the default `""`, which is not a cell
value). -/
def boardGet (b : List (List String)) (r c : Nat) : String :=
  (b.getD r []).getD c ""

/-- Writing `board[r][c] = v` (in the source the indices are in range;
out-of-range writes are no-ops). -/
def setCell (b : List (List String)) (r c : Nat) (v : String) :
    List (List String) :=
  b.set r ((b.getD r []).set c v)

/-- `GomokuGame.switch_player`. -/
def switch_player (g : Game) : Game :=
  { g with current_player := if g.current_player = "black" then "white" else "black" }

/-- `GomokuGame.place_stone(row, col)`: returns the new state and the
boolean result of the Python method. -/
def place_stone (g : Game) (row col : Int) : Game × Bool :=
  if ¬ (0 ≤ row ∧ row < (g.size : Int) ∧ 0 ≤ col ∧ col < (g.size : Int)) then
    (g, false)
  else if boardGet g.board row.toNat col.toNat ≠ EMPTY then
    (g, false)
  else
    let stone := PLAYER_STONES g.current_player
    ({ g with
        board := setCell g.board row.toNat col.toNat stone
        moves_played := g.moves_played + 1 }, true)

/-- The message `place_stone` prints on failure (a side channel separate
from its boolean return value): the out-of-range message, the occupied
message, or nothing on success. -/
def place_stone_message (g : Game) (row col : Int) : Option String :=
  if ¬ (0 ≤ row ∧ row < (g.size : Int) ∧ 0 ≤ col ∧ col < (g.size : Int)) then
    some "位置超出棋盘范围，请重新输入。"
  else if boardGet g.board row.toNat col.toNat ≠ EMPTY then
    some "该位置已经有棋子，请重新输入。"
  else
    none

/-- The guard of the scanning loop in `check_winner.count`:
`0 <= r < self.size and 0 <= c < self.size and self.board[r][c] == stone`.
The board is read only after the bounds tests succeed. -/
def matchStep (g : Game) (stone : String) (r c : Int) : Bool :=
  decide (0 ≤ r) && decide (r < (g.size : Int)) &&
  decide (0 ≤ c) && decide (c < (g.size : Int)) &&
  decide (boardGet g.board r.toNat c.toNat = stone)

/-- One arm of `check_winner.count`: starting from `(r, c)`, repeatedly
step by `(dr, dc)` and count consecutive cells matching `stone`,
stopping at the first failure of the loop guard.  The source's
`while True` loop is embedded with explicit fuel; `countLine` supplies
fuel `size + 1`, which `scanDir_fuel_stable` proves is enough for the
loop to reach its exit before the fuel runs out. -/
def scanDir (g : Game) (stone : String) (dr dc : Int) :
    Nat → Int → Int → Nat
  | 0, _, _ => 0
  | fuel + 1, r, c =>
    if matchStep g stone (r + dr) (c + dc) then
      1 + scanDir g stone dr dc fuel (r + dr) (c + dc)
    else 0

/-- `check_winner.count(direction_row, direction_col)`: the placed cell
counts as 1, plus the consecutive matching cells in the positive
direction (`direction = 1`) and in the negative direction
(`direction = -1`). -/
def countLine (g : Game) (stone : String) (row col dr dc : Int) : Nat :=
  1 + scanDir g stone dr dc (g.size + 1) row col
    + scanDir g stone (-dr) (-dc) (g.size + 1) row col

/-- `GomokuGame.check_winner(row, col)`: try the four axes
`(1,0), (0,1), (1,1), (1,-1)` in order, returning a win for the current
player on the first axis whose count reaches 5; otherwise a draw when
the board is full, otherwise an ongoing result.  The method performs no
writes, so the threaded state is returned unchanged. -/
def check_winner (g : Game) (row col : Int) : MoveResult × Game :=
  let stone := PLAYER_STONES g.current_player
  if 5 ≤ countLine g stone row col 1 0 then
    ({ winner := some g.current_player, draw := false }, g)
  else if 5 ≤ countLine g stone row col 0 1 then
    ({ winner := some g.current_player, draw := false }, g)
  else if 5 ≤ countLine g stone row col 1 1 then
    ({ winner := some g.current_player, draw := false }, g)
  else if 5 ≤ countLine g stone row col 1 (-1) then
    ({ winner := some g.current_player, draw := false }, g)
  else if g.moves_played = g.size * g.size then
    ({ winner := none, draw := true }, g)
  else
    ({ winner := none, draw := false }, g)

/-- Width-2 right-aligned rendering of an index, as `f"{i:2}"` does for
the indices `1 ..= size` used by `print_board`. -/
def fmt2 (n : Nat) : String :=
  if n < 10 then " " ++ toString n else toString n

/-- `GomokuGame.print_board`: the text it prints (header then one line
per row), paired with the unchanged state. -/
def print_board (g : Game) : String × Game :=
  let header :=
    "   " ++ String.intercalate " " ((List.range g.size).map (fun i => fmt2 (i + 1)))
  let rows :=
    g.board.enum.map (fun p => fmt2 (p.1 + 1) ++ " " ++ String.intercalate " " p.2)
  (String.intercalate "\n" (header :: rows), g)

/-! ### Spec-side definitions -/

/-- The number of non-`EMPTY` cells of one row. -/
def rowStones (row : List String) : Nat :=
  (row.filter (fun cell => cell ≠ EMPTY)).length

/-- The number of non-`EMPTY` cells of a board (the spec's occupancy
count). -/
def countStones (b : List (List String)) : Nat :=
  (b.map rowStones).sum

/-- The states reachable from a fresh game through the engine's
operations: placement (successful or failed), outcome checking, turn
switching, and rendering. -/
inductive Reachable : Game → Prop
  | init (size : Nat) : Reachable (mkGame size)
  | place (g : Game) (row col : Int) :
      Reachable g → Reachable (place_stone g row col).1
  | switch (g : Game) : Reachable g → Reachable (switch_player g)
  | check (g : Game) (row col : Int) :
      Reachable g → Reachable (check_winner g row col).2
  | render (g : Game) : Reachable g → Reachable (print_board g).2

/-- Spec side: the loop guard holds at the `j`-th step away from
`(row, col)` along `(dr, dc)`: the cell `(row + dr*j, col + dc*j)` is in
bounds and holds `stone`. -/
def MatchAt (g : Game) (stone : String) (row col dr dc : Int) (j : Nat) : Prop :=
  matchStep g stone (row + dr * j) (col + dc * j) = true

/-- Spec side: the run of consecutive matching cells away from
`(row, col)` along `(dr, dc)` has length exactly `k`: steps `1 .. k` all
match and step `k + 1` is the first failure (out of bounds or not the
marker). -/
def IsRun (g : Game) (stone : String) (row col dr dc : Int) (k : Nat) : Prop :=
  (∀ j : Nat, 1 ≤ j → j ≤ k → MatchAt g stone row col dr dc j) ∧
    ¬ MatchAt g stone row col dr dc (k + 1)

/-- A unit step direction: one of the eight directions obtained from the
four scanned axes and their negations. -/
def isStepDir (dr dc : Int) : Prop :=
  (dr = 1 ∨ dr = -1) ∨ (dr = 0 ∧ (dc = 1 ∨ dc = -1))

/-! ### Concrete example games used by witnesses and counterexamples -/

/-- A fully-filled 4×4 board: every axis count is at most 4, and
`moves_played = size * size`. -/
def gFull : Game :=
  { size := 4
    board := [["X", "X", "X", "X"], ["X", "X", "X", "X"],
              ["X", "X", "X", "X"], ["X", "X", "X", "X"]]
    current_player := "black"
    moves_played := 16 }

/-- Black has a blocked four `(0,0)..(0,3)` (left end off-board, right
end white) and an open vertical five `(0,0)..(4,0)`; black just played
`(0,0)`. -/
def gBlockedPlusFive : Game :=
  { size := 6
    board := [["X", "X", "X", "X", "O", "."],
              ["X", ".", ".", ".", ".", "."],
              ["X", ".", ".", ".", ".", "."],
              ["X", ".", ".", ".", ".", "."],
              ["X", ".", ".", ".", ".", "."],
              [".", ".", ".", ".", ".", "."]]
    current_player := "black"
    moves_played := 9 }

/-- Black has exactly a blocked four `(0,0)..(0,3)` (left end off-board,
right end white) and nothing else; black just played `(0,3)`. -/
def gBlockedFour : Game :=
  { size := 5
    board := [["X", "X", "X", "X", "O"],
              [".", ".", ".", ".", "."],
              [".", ".", ".", ".", "."],
              [".", ".", ".", ".", "."],
              [".", ".", ".", ".", "."]]
    current_player := "black"
    moves_played := 5 }

/-- Four black stones running down column 0 from the top edge. -/
def gColumnFour : Game :=
  { size := 5
    board := [["X", ".", ".", ".", "."],
              ["X", ".", ".", ".", "."],
              ["X", ".", ".", ".", "."],
              ["X", ".", ".", ".", "."],
              [".", ".", ".", ".", "."]]
    current_player := "black"
    moves_played := 4 }

/-- Black stones at `(0,0), (0,1), (0,3), (0,4)` with `(0,2)` empty. -/
def gGapRow : Game :=
  { size := 5
    board := [["X", "X", ".", "X", "X"],
              [".", ".", ".", ".", "."],
              [".", ".", ".", ".", "."],
              [".", ".", ".", ".", "."],
              [".", ".", ".", ".", "."]]
    current_player := "black"
    moves_played := 4 }

instance decMatchAt (g : Game) (stone : String) (row col dr dc : Int) (j : Nat) :
    Decidable (MatchAt g stone row col dr dc j) := by
  unfold MatchAt; infer_instance

instance decIsStepDir (dr dc : Int) : Decidable (isStepDir dr dc) := by
  unfold isStepDir; infer_instance

/-! ### List-level helper lemmas -/

theorem bool_eq_of_iff {a b : Bool} (h : a = true ↔ b = true) : a = b := by
  cases a <;> cases b <;> simp_all

theorem getD_set_self {α : Type} (l : List α) (i : Nat) (v d : α)
    (h : i < l.length) : (l.set i v).getD i d = v := by
  rw [List.getD_eq_getElem (l.set i v) d (by simpa using h), List.getElem_set]
  simp

theorem getD_set_ne {α : Type} (l : List α) (i j : Nat) (v d : α)
    (h : i ≠ j) : (l.set i v).getD j d = l.getD j d := by
  by_cases hj : j < l.length
  · rw [List.getD_eq_getElem (l.set i v) d (by simpa using hj),
      List.getD_eq_getElem l d hj, List.getElem_set]
    simp [h]
  · rw [List.getD_eq_default (l.set i v) d (by simpa using Nat.le_of_not_lt hj),
      List.getD_eq_default l d (Nat.le_of_not_lt hj)]

/-- A cell that reads as a real cell value (here `EMPTY`, distinct from
the out-of-range default `""`) certifies that both indices are valid. -/
theorem boardGet_valid {b : List (List String)} {r c : Nat}
    (h : boardGet b r c = EMPTY) :
    r < b.length ∧ c < (b.getD r []).length := by
  constructor
  · by_contra hr
    have hrow : b.getD r [] = [] := List.getD_eq_default b [] (Nat.le_of_not_lt hr)
    rw [boardGet, hrow] at h
    exact (by decide : ("" : String) ≠ EMPTY) h
  · by_contra hc
    rw [boardGet, List.getD_eq_default (b.getD r []) "" (Nat.le_of_not_lt hc)] at h
    exact (by decide : ("" : String) ≠ EMPTY) h

theorem boardGet_setCell_self {b : List (List String)} {r c : Nat} (v : String)
    (hr : r < b.length) (hc : c < (b.getD r []).length) :
    boardGet (setCell b r c v) r c = v := by
  unfold boardGet setCell
  rw [getD_set_self b r ((b.getD r []).set c v) [] hr]
  exact getD_set_self (b.getD r []) c v "" hc

theorem boardGet_setCell_ne (b : List (List String)) (r c r' c' : Nat) (v : String)
    (hne : r' ≠ r ∨ c' ≠ c) :
    boardGet (setCell b r c v) r' c' = boardGet b r' c' := by
  unfold boardGet setCell
  rcases eq_or_ne r r' with rfl | hr
  · have hcc : c' ≠ c := hne.resolve_left (by simp)
    by_cases hlen : r < b.length
    · rw [getD_set_self b r ((b.getD r []).set c v) [] hlen]
      exact getD_set_ne (b.getD r []) c c' v "" (Ne.symm hcc)
    · rw [List.getD_eq_default (b.set r ((b.getD r []).set c v)) []
          (by rw [List.length_set]; exact Nat.le_of_not_lt hlen),
        List.getD_eq_default b [] (Nat.le_of_not_lt hlen)]
  · rw [getD_set_ne b r r' ((b.getD r []).set c v) [] hr]

/-! ### The directional scan: run characterization and termination -/

/-- Unfolding of the loop guard into its bounds tests and board read. -/
theorem matchStep_iff (g : Game) (stone : String) (r c : Int) :
    matchStep g stone r c = true ↔
      ((0 ≤ r ∧ r < (g.size : Int) ∧ 0 ≤ c ∧ c < (g.size : Int)) ∧
        boardGet g.board r.toNat c.toNat = stone) := by
  unfold matchStep
  simp [Bool.and_eq_true, decide_eq_true_eq]
  tauto

theorem MatchAt_one (g : Game) (stone : String) (row col dr dc : Int) :
    MatchAt g stone row col dr dc 1 ↔ matchStep g stone (row + dr) (col + dc) = true := by
  unfold MatchAt
  norm_num

theorem MatchAt_shift (g : Game) (stone : String) (row col dr dc : Int) (j : Nat) :
    MatchAt g stone (row + dr) (col + dc) dr dc j ↔
      MatchAt g stone row col dr dc (j + 1) := by
  have hr : row + dr + dr * (j : Int) = row + dr * ((j + 1 : Nat) : Int) := by
    push_cast; ring
  have hc : col + dc + dc * (j : Int) = col + dc * ((j + 1 : Nat) : Int) := by
    push_cast; ring
  unfold MatchAt
  rw [hr, hc]

/-- The fuel-bounded scan returns exactly the length of the run of
consecutive matching cells, as long as the fuel exceeds that length. -/
theorem scanDir_eq_of_run (g : Game) (stone : String) (dr dc : Int) :
    ∀ (k : Nat) (row col : Int) (F : Nat),
      IsRun g stone row col dr dc k → k < F →
      scanDir g stone dr dc F row col = k := by
  intro k
  induction k with
  | zero =>
    intro row col F hrun hF
    obtain ⟨F', rfl⟩ : ∃ F', F = F' + 1 := ⟨F - 1, by omega⟩
    have hm : matchStep g stone (row + dr) (col + dc) = false := by
      have h1 : ¬ MatchAt g stone row col dr dc 1 := hrun.2
      rw [MatchAt_one] at h1
      exact Bool.not_eq_true _ ▸ h1
    rw [scanDir, hm]
    simp
  | succ k ih =>
    intro row col F hrun hF
    obtain ⟨F', rfl⟩ : ∃ F', F = F' + 1 := ⟨F - 1, by omega⟩
    have h1 : MatchAt g stone row col dr dc 1 := hrun.1 1 le_rfl (by omega)
    rw [MatchAt_one] at h1
    have hrun' : IsRun g stone (row + dr) (col + dc) dr dc k := by
      constructor
      · intro j hj1 hjk
        exact (MatchAt_shift g stone row col dr dc j).mpr
          (hrun.1 (j + 1) (by omega) (by omega))
      · intro hm
        exact hrun.2 ((MatchAt_shift g stone row col dr dc (k + 1)).mp hm)
    rw [scanDir, h1]
    simp only [if_true]
    rw [ih (row + dr) (col + dc) F' hrun' (by omega)]
    omega

/-- Along any unit step direction, the run of consecutive matching cells
is at most `size` long: a run exists and is bounded by the board size. -/
theorem run_exists (g : Game) (stone : String) (row col dr dc : Int)
    (hdir : isStepDir dr dc) :
    ∃ k : Nat, k ≤ g.size ∧ IsRun g stone row col dr dc k := by
  have hex : ∃ n : Nat, n ≤ g.size ∧ ¬ MatchAt g stone row col dr dc (n + 1) := by
    by_contra hall
    push_neg at hall
    have h1 := (matchStep_iff g stone _ _).mp (hall 0 (Nat.zero_le _))
    have h2 := (matchStep_iff g stone _ _).mp (hall g.size le_rfl)
    obtain ⟨⟨ha1, ha2, ha3, ha4⟩, -⟩ := h1
    obtain ⟨⟨hb1, hb2, hb3, hb4⟩, -⟩ := h2
    push_cast at ha1 ha2 ha3 ha4 hb1 hb2 hb3 hb4
    rcases hdir with (rfl | rfl) | ⟨rfl, (rfl | rfl)⟩ <;> omega
  obtain ⟨n, hn, hPn⟩ := hex
  have hfind : ∃ m : Nat, ¬ MatchAt g stone row col dr dc (m + 1) := ⟨n, hPn⟩
  refine ⟨Nat.find hfind, le_trans (Nat.find_min' hfind hPn) hn, ?_, Nat.find_spec hfind⟩
  intro j hj1 hjk
  have hmin := @Nat.find_min _ _ hfind (j - 1) (by omega)
  rw [not_not] at hmin
  have hj : j - 1 + 1 = j := by omega
  rwa [hj] at hmin

/-- The run length is unique: the first failing step determines it. -/
theorem run_unique {g : Game} {stone : String} {row col dr dc : Int} {k k' : Nat}
    (h : IsRun g stone row col dr dc k) (h' : IsRun g stone row col dr dc k') :
    k = k' := by
  by_contra hne
  rcases Nat.lt_or_ge k k' with hlt | hge
  · exact h.2 (h'.1 (k + 1) (by omega) (by omega))
  · exact h'.2 (h.1 (k' + 1) (by omega) (by omega))

theorem isStepDir_neg {dr dc : Int} (h : isStepDir dr dc) : isStepDir (-dr) (-dc) := by
  unfold isStepDir at h ⊢
  rcases h with (rfl | rfl) | ⟨rfl, (rfl | rfl)⟩ <;> norm_num

/-- `count` is 1 for the placed cell plus the two run lengths. -/
theorem countLine_eq_runs (g : Game) (stone : String) (row col dr dc : Int)
    (kp kn : Nat) (hdp : isStepDir dr dc)
    (hp : IsRun g stone row col dr dc kp)
    (hn : IsRun g stone row col (-dr) (-dc) kn) :
    countLine g stone row col dr dc = 1 + kp + kn := by
  obtain ⟨kp', hkp', hrunp'⟩ := run_exists g stone row col dr dc hdp
  obtain ⟨kn', hkn', hrunn'⟩ := run_exists g stone row col (-dr) (-dc) (isStepDir_neg hdp)
  have ep : kp = kp' := run_unique hp hrunp'
  have en : kn = kn' := run_unique hn hrunn'
  rw [countLine, scanDir_eq_of_run g stone dr dc kp row col (g.size + 1) hp (by omega),
    scanDir_eq_of_run g stone (-dr) (-dc) kn row col (g.size + 1) hn (by omega)]

/-- An axis total reaches 5 exactly when the two runs along the axis,
plus the placed cell, reach 5. -/
theorem countLine_ge_iff_runs (g : Game) (stone : String) (row col dr dc : Int)
    (hdp : isStepDir dr dc) :
    5 ≤ countLine g stone row col dr dc ↔
      ∃ kp kn : Nat, IsRun g stone row col dr dc kp ∧
        IsRun g stone row col (-dr) (-dc) kn ∧ 5 ≤ 1 + kp + kn := by
  constructor
  · intro h
    obtain ⟨kp, hkp, hp⟩ := run_exists g stone row col dr dc hdp
    obtain ⟨kn, hkn, hn⟩ := run_exists g stone row col (-dr) (-dc) (isStepDir_neg hdp)
    refine ⟨kp, kn, hp, hn, ?_⟩
    rwa [countLine_eq_runs g stone row col dr dc kp kn hdp hp hn] at h
  · rintro ⟨kp, kn, hp, hn, h5⟩
    rwa [countLine_eq_runs g stone row col dr dc kp kn hdp hp hn]

/-! ### Occupancy counting -/

theorem PLAYER_STONES_ne_EMPTY (p : String) : PLAYER_STONES p ≠ EMPTY := by
  unfold PLAYER_STONES
  by_cases h : p = "black" <;> simp [h] <;> decide

theorem rowStones_nil : rowStones [] = 0 := rfl

theorem rowStones_cons (a : String) (l : List String) :
    rowStones (a :: l) = (if a ≠ EMPTY then 1 else 0) + rowStones l := by
  unfold rowStones
  by_cases h : a = EMPTY <;> simp [List.filter_cons, h]
  omega

theorem countStones_nil : countStones [] = 0 := rfl

theorem countStones_cons (row : List String) (b : List (List String)) :
    countStones (row :: b) = rowStones row + countStones b := by
  simp [countStones]

theorem rowStones_replicate (n : Nat) : rowStones (List.replicate n EMPTY) = 0 := by
  induction n with
  | zero => rfl
  | succ n ih => rw [List.replicate_succ, rowStones_cons]; simp [ih]

theorem countStones_replicate (m n : Nat) :
    countStones (List.replicate m (List.replicate n EMPTY)) = 0 := by
  induction m with
  | zero => rfl
  | succ m ih =>
    rw [List.replicate_succ, countStones_cons, rowStones_replicate, ih]

/-- A fresh board has no stones. -/
theorem countStones_create_board (n : Nat) : countStones (create_board n) = 0 :=
  countStones_replicate n n

/-- Overwriting an `EMPTY` cell with a non-`EMPTY` value adds one stone
to the row. -/
theorem rowStones_set (row : List String) (c : Nat) (v : String)
    (hc : c < row.length) (he : row.getD c "" = EMPTY) (hv : v ≠ EMPTY) :
    rowStones (row.set c v) = rowStones row + 1 := by
  induction row generalizing c with
  | nil => simp at hc
  | cons a tl ih =>
    cases c with
    | zero =>
      have ha : a = EMPTY := by simpa using he
      rw [List.set_cons_zero, rowStones_cons, rowStones_cons, ha]
      simp [hv]
      omega
    | succ c =>
      have hc' : c < tl.length := by simpa using hc
      have he' : tl.getD c "" = EMPTY := by simpa using he
      rw [List.set_cons_succ, rowStones_cons, rowStones_cons, ih c hc' he']
      omega

theorem countStones_set_aux :
    ∀ (b : List (List String)) (r c : Nat) (v : String),
      c < (b.getD r []).length → boardGet b r c = EMPTY → v ≠ EMPTY →
      countStones (b.set r ((b.getD r []).set c v)) = countStones b + 1 := by
  intro b
  induction b with
  | nil =>
    intro r c v hc he hv
    exact absurd he (by cases r <;> exact (by decide : ("" : String) ≠ EMPTY))
  | cons row tl ih =>
    intro r c v hc he hv
    cases r with
    | zero =>
      have hrow : (row :: tl).getD 0 [] = row := rfl
      rw [hrow] at hc ⊢
      rw [List.set_cons_zero, countStones_cons, countStones_cons,
        rowStones_set row c v hc (by simpa [boardGet] using he) hv]
      omega
    | succ r =>
      have hc' : c < (tl.getD r []).length := by simpa using hc
      have he' : boardGet tl r c = EMPTY := by simpa [boardGet] using he
      have htl : (row :: tl).getD (r + 1) [] = tl.getD r [] := rfl
      rw [htl, List.set_cons_succ, countStones_cons, countStones_cons,
        ih r c v hc' he' hv]
      omega

/-- Overwriting an `EMPTY` cell with a non-`EMPTY` value adds one stone
to the board. -/
theorem countStones_setCell (b : List (List String)) (r c : Nat) (v : String)
    (he : boardGet b r c = EMPTY) (hv : v ≠ EMPTY) :
    countStones (setCell b r c v) = countStones b + 1 :=
  countStones_set_aux b r c v (boardGet_valid he).2 he hv

/-! ### State framing of the read-only operations -/

theorem check_winner_state (g : Game) (row col : Int) :
    (check_winner g row col).2 = g := by
  simp only [check_winner]
  split_ifs <;> rfl

theorem print_board_state (g : Game) : (print_board g).2 = g := rfl

/-! ### The scan never reads the placed cell -/

/-- The loop guard at a cell other than `(row, col)` is unaffected by
writing `(row, col)`. -/
theorem matchStep_setCell (g : Game) (stone v : String) (row col r c : Int)
    (hrow : 0 ≤ row) (hcol : 0 ≤ col) (hne : r ≠ row ∨ c ≠ col) :
    matchStep { g with board := setCell g.board row.toNat col.toNat v } stone r c =
      matchStep g stone r c := by
  apply bool_eq_of_iff
  rw [matchStep_iff, matchStep_iff]
  by_cases hb : 0 ≤ r ∧ r < (g.size : Int) ∧ 0 ≤ c ∧ c < (g.size : Int)
  · have hread : boardGet (setCell g.board row.toNat col.toNat v) r.toNat c.toNat =
        boardGet g.board r.toNat c.toNat := by
      apply boardGet_setCell_ne
      rcases hne with h | h
      · left; intro heq; apply h; omega
      · right; intro heq; apply h; omega
    constructor
    · rintro ⟨-, hrd⟩
      exact ⟨hb, by rwa [hread] at hrd⟩
    · rintro ⟨-, hrd⟩
      exact ⟨hb, by rwa [hread]⟩
  · constructor
    · rintro ⟨hb', -⟩
      exact absurd hb' hb
    · rintro ⟨hb', -⟩
      exact absurd hb' hb

/-- The scan along a unit direction starting from the placed cell never
reads the placed cell itself. -/
theorem scanDir_setCell (g : Game) (stone v : String) (row col dr dc : Int)
    (hdir : isStepDir dr dc) (hrow : 0 ≤ row) (hcol : 0 ≤ col) :
    ∀ (F t : Nat),
      scanDir { g with board := setCell g.board row.toNat col.toNat v } stone dr dc F
          (row + dr * t) (col + dc * t) =
        scanDir g stone dr dc F (row + dr * t) (col + dc * t) := by
  intro F
  induction F with
  | zero => intro t; rfl
  | succ F ih =>
    intro t
    have hpr : row + dr * (t : Int) + dr = row + dr * ((t + 1 : Nat) : Int) := by
      push_cast; ring
    have hpc : col + dc * (t : Int) + dc = col + dc * ((t + 1 : Nat) : Int) := by
      push_cast; ring
    have hne : row + dr * ((t + 1 : Nat) : Int) ≠ row ∨
        col + dc * ((t + 1 : Nat) : Int) ≠ col := by
      rcases hdir with (rfl | rfl) | ⟨rfl, (rfl | rfl)⟩
      · left; push_cast; omega
      · left; push_cast; omega
      · right; push_cast; omega
      · right; push_cast; omega
    have hms := matchStep_setCell g stone v row col
      (row + dr * ((t + 1 : Nat) : Int)) (col + dc * ((t + 1 : Nat) : Int)) hrow hcol hne
    rw [scanDir, scanDir, hpr, hpc, hms]
    by_cases hm : matchStep g stone (row + dr * ((t + 1 : Nat) : Int))
        (col + dc * ((t + 1 : Nat) : Int)) = true
    · rw [hm]
      simp only [if_true]
      rw [ih (t + 1)]
    · rw [Bool.not_eq_true] at hm
      rw [hm]
      simp

/-- Axis totals through `(row, col)` are unaffected by writing the cell
`(row, col)` itself. -/
theorem countLine_setCell (g : Game) (stone v : String) (row col dr dc : Int)
    (hdir : isStepDir dr dc) (hrow : 0 ≤ row) (hcol : 0 ≤ col) :
    countLine { g with board := setCell g.board row.toNat col.toNat v } stone row col dr dc =
      countLine g stone row col dr dc := by
  have h1 := scanDir_setCell g stone v row col dr dc hdir hrow hcol (g.size + 1) 0
  have h2 := scanDir_setCell g stone v row col (-dr) (-dc) (isStepDir_neg hdir)
    hrow hcol (g.size + 1) 0
  simp only [Nat.cast_zero, mul_zero, add_zero] at h1 h2
  unfold countLine
  rw [h1, h2]

/-! ### Branch analysis of check_winner -/

/-- `check_winner` reports a win (for the current player, with the draw
flag clear) exactly when one of the four axis totals reaches 5. -/
theorem check_winner_win_counts (g : Game) (row col : Int) :
    ((check_winner g row col).1.winner = some g.current_player ∧
      (check_winner g row col).1.draw = false) ↔
    (5 ≤ countLine g (PLAYER_STONES g.current_player) row col 1 0 ∨
     5 ≤ countLine g (PLAYER_STONES g.current_player) row col 0 1 ∨
     5 ≤ countLine g (PLAYER_STONES g.current_player) row col 1 1 ∨
     5 ≤ countLine g (PLAYER_STONES g.current_player) row col 1 (-1)) := by
  simp only [check_winner]
  split_ifs with a b c d e <;> simp_all

/-- If `check_winner` reports any winner, some axis total reached 5. -/
theorem check_winner_winner_some (g : Game) (row col : Int) (p : String)
    (h : (check_winner g row col).1.winner = some p) :
    5 ≤ countLine g (PLAYER_STONES g.current_player) row col 1 0 ∨
    5 ≤ countLine g (PLAYER_STONES g.current_player) row col 0 1 ∨
    5 ≤ countLine g (PLAYER_STONES g.current_player) row col 1 1 ∨
    5 ≤ countLine g (PLAYER_STONES g.current_player) row col 1 (-1) := by
  simp only [check_winner] at h
  split_ifs at h with a b c d
  · exact Or.inl a
  · exact Or.inr (Or.inl b)
  · exact Or.inr (Or.inr (Or.inl c))
  · exact Or.inr (Or.inr (Or.inr d))

/-! ### Branch equations of place_stone -/

theorem place_stone_oob (g : Game) (row col : Int)
    (h : ¬ (0 ≤ row ∧ row < (g.size : Int) ∧ 0 ≤ col ∧ col < (g.size : Int))) :
    place_stone g row col = (g, false) := by
  unfold place_stone
  rw [if_pos h]

theorem place_stone_occupied (g : Game) (row col : Int)
    (hb : 0 ≤ row ∧ row < (g.size : Int) ∧ 0 ≤ col ∧ col < (g.size : Int))
    (ho : boardGet g.board row.toNat col.toNat ≠ EMPTY) :
    place_stone g row col = (g, false) := by
  unfold place_stone
  rw [if_neg (not_not_intro hb), if_pos ho]

theorem place_stone_ok (g : Game) (row col : Int)
    (hb : 0 ≤ row ∧ row < (g.size : Int) ∧ 0 ≤ col ∧ col < (g.size : Int))
    (he : boardGet g.board row.toNat col.toNat = EMPTY) :
    place_stone g row col =
      ({ g with
          board := setCell g.board row.toNat col.toNat (PLAYER_STONES g.current_player)
          moves_played := g.moves_played + 1 }, true) := by
  unfold place_stone
  rw [if_neg (not_not_intro hb), if_neg (not_not_intro he)]

theorem place_stone_message_oob (g : Game) (row col : Int)
    (h : ¬ (0 ≤ row ∧ row < (g.size : Int) ∧ 0 ≤ col ∧ col < (g.size : Int))) :
    place_stone_message g row col = some "位置超出棋盘范围，请重新输入。" := by
  unfold place_stone_message
  rw [if_pos h]

theorem place_stone_message_occupied (g : Game) (row col : Int)
    (hb : 0 ≤ row ∧ row < (g.size : Int) ∧ 0 ≤ col ∧ col < (g.size : Int))
    (ho : boardGet g.board row.toNat col.toNat ≠ EMPTY) :
    place_stone_message g row col = some "该位置已经有棋子，请重新输入。" := by
  unfold place_stone_message
  rw [if_neg (not_not_intro hb), if_pos ho]

theorem place_stone_message_ok (g : Game) (row col : Int)
    (hb : 0 ≤ row ∧ row < (g.size : Int) ∧ 0 ≤ col ∧ col < (g.size : Int))
    (he : boardGet g.board row.toNat col.toNat = EMPTY) :
    place_stone_message g row col = none := by
  unfold place_stone_message
  rw [if_neg (not_not_intro hb), if_neg (not_not_intro he)]

/-- The successful placement changes the state (the move counter grew),
so a failed call is recognizable by the unchanged state. -/
theorem place_stone_ok_ne (g : Game) (row col : Int)
    (hb : 0 ≤ row ∧ row < (g.size : Int) ∧ 0 ≤ col ∧ col < (g.size : Int))
    (he : boardGet g.board row.toNat col.toNat = EMPTY) :
    (place_stone g row col).1 ≠ g := by
  rw [place_stone_ok g row col hb he]
  intro h
  have hmv := congrArg Game.moves_played h
  simp only [] at hmv
  omega

/-! ### Claim theorems -/

/-- C2: `place_stone(row, col)` fails exactly when `(row, col)` is out of
bounds or the in-bounds target cell is not `EMPTY`; it leaves the state
unchanged exactly when it fails; and in particular the calls at
`(-1, 0)`, `(N, 0)` and `(0, N)` all fail. -/
theorem place_stone_failure_characterization (g : Game) (row col : Int) :
    ((place_stone g row col).2 = false ↔
      (¬ (0 ≤ row ∧ row < (g.size : Int) ∧ 0 ≤ col ∧ col < (g.size : Int)) ∨
        ((0 ≤ row ∧ row < (g.size : Int) ∧ 0 ≤ col ∧ col < (g.size : Int)) ∧
          boardGet g.board row.toNat col.toNat ≠ EMPTY))) ∧
    ((place_stone g row col).1 = g ↔ (place_stone g row col).2 = false) ∧
    (place_stone g (-1) 0).2 = false ∧
    (place_stone g (g.size : Int) 0).2 = false ∧
    (place_stone g 0 (g.size : Int)).2 = false := by
  have hm1 : ¬ (0 ≤ (-1 : Int) ∧ (-1 : Int) < (g.size : Int) ∧
      0 ≤ (0 : Int) ∧ (0 : Int) < (g.size : Int)) := by
    rintro ⟨h, -⟩; omega
  have hm2 : ¬ (0 ≤ (g.size : Int) ∧ (g.size : Int) < (g.size : Int) ∧
      0 ≤ (0 : Int) ∧ (0 : Int) < (g.size : Int)) := by
    rintro ⟨-, h, -⟩; omega
  have hm3 : ¬ (0 ≤ (0 : Int) ∧ (0 : Int) < (g.size : Int) ∧
      0 ≤ (g.size : Int) ∧ (g.size : Int) < (g.size : Int)) := by
    rintro ⟨-, -, -, h⟩; omega
  have hsplit :
      (∃ hfail : place_stone g row col = (g, false),
        (¬ (0 ≤ row ∧ row < (g.size : Int) ∧ 0 ≤ col ∧ col < (g.size : Int)) ∨
          ((0 ≤ row ∧ row < (g.size : Int) ∧ 0 ≤ col ∧ col < (g.size : Int)) ∧
            boardGet g.board row.toNat col.toNat ≠ EMPTY))) ∨
      ((place_stone g row col).2 = true ∧ (place_stone g row col).1 ≠ g ∧
        ¬ (¬ (0 ≤ row ∧ row < (g.size : Int) ∧ 0 ≤ col ∧ col < (g.size : Int)) ∨
          ((0 ≤ row ∧ row < (g.size : Int) ∧ 0 ≤ col ∧ col < (g.size : Int)) ∧
            boardGet g.board row.toNat col.toNat ≠ EMPTY))) := by
    by_cases hb : 0 ≤ row ∧ row < (g.size : Int) ∧ 0 ≤ col ∧ col < (g.size : Int)
    · by_cases he : boardGet g.board row.toNat col.toNat = EMPTY
      · refine Or.inr ⟨?_, place_stone_ok_ne g row col hb he, ?_⟩
        · rw [place_stone_ok g row col hb he]
        · rintro (h | ⟨-, h⟩)
          · exact h hb
          · exact h he
      · exact Or.inl ⟨place_stone_occupied g row col hb he, Or.inr ⟨hb, he⟩⟩
    · exact Or.inl ⟨place_stone_oob g row col hb, Or.inl hb⟩
  refine ⟨?_, ?_, ?_, ?_, ?_⟩
  · rcases hsplit with ⟨hfail, hwhy⟩ | ⟨hok, -, hwhy⟩
    · rw [hfail]
      simpa using hwhy
    · rw [hok]
      simpa using hwhy
  · rcases hsplit with ⟨hfail, -⟩ | ⟨hok, hne, -⟩
    · rw [hfail]
      simp
    · rw [hok]
      simp [hne]
  · rw [place_stone_oob g (-1) 0 hm1]
  · rw [place_stone_oob g (g.size : Int) 0 hm2]
  · rw [place_stone_oob g 0 (g.size : Int) hm3]

/-- C3: a placement at an in-bounds empty cell succeeds, writes the
current player's marker into exactly that cell (all other cells read the
same), increments `moves_played` by one, and leaves `current_player`
(and the board size) unchanged. -/
theorem place_stone_success_effects (g : Game) (row col : Int)
    (hb : 0 ≤ row ∧ row < (g.size : Int) ∧ 0 ≤ col ∧ col < (g.size : Int))
    (he : boardGet g.board row.toNat col.toNat = EMPTY) :
    (place_stone g row col).2 = true ∧
    boardGet (place_stone g row col).1.board row.toNat col.toNat =
      PLAYER_STONES g.current_player ∧
    (∀ r c : Nat, r ≠ row.toNat ∨ c ≠ col.toNat →
      boardGet (place_stone g row col).1.board r c = boardGet g.board r c) ∧
    (place_stone g row col).1.moves_played = g.moves_played + 1 ∧
    (place_stone g row col).1.current_player = g.current_player ∧
    (place_stone g row col).1.size = g.size := by
  have hplace : place_stone g row col =
      ({ g with
          board := setCell g.board row.toNat col.toNat (PLAYER_STONES g.current_player)
          moves_played := g.moves_played + 1 }, true) := by
    unfold place_stone
    rw [if_neg (not_not_intro hb), if_neg (not_not_intro he)]
  obtain ⟨hr, hc⟩ := boardGet_valid he
  rw [hplace]
  exact ⟨rfl, boardGet_setCell_self (PLAYER_STONES g.current_player) hr hc,
    fun r c hne => boardGet_setCell_ne g.board row.toNat col.toNat r c
      (PLAYER_STONES g.current_player) hne, rfl, rfl, rfl⟩

theorem place_stone_success_effects_witness :
    (place_stone (mkGame 3) 0 0).2 = true ∧
    boardGet (place_stone (mkGame 3) 0 0).1.board (Int.toNat 0) (Int.toNat 0) =
      PLAYER_STONES (mkGame 3).current_player ∧
    (∀ r c : Nat, r ≠ (Int.toNat 0) ∨ c ≠ (Int.toNat 0) →
      boardGet (place_stone (mkGame 3) 0 0).1.board r c = boardGet (mkGame 3).board r c) ∧
    (place_stone (mkGame 3) 0 0).1.moves_played = (mkGame 3).moves_played + 1 ∧
    (place_stone (mkGame 3) 0 0).1.current_player = (mkGame 3).current_player ∧
    (place_stone (mkGame 3) 0 0).1.size = (mkGame 3).size :=
  place_stone_success_effects (mkGame 3) 0 0 (by decide) (by decide)

/-- C5: when no axis total through the placed cell reaches 5,
`check_winner` returns a draw exactly when the board is full
(`moves_played = size * size`) and an ongoing result otherwise; the win
test is evaluated first, so a win is only excluded here by hypothesis. -/
theorem check_winner_draw_or_ongoing (g : Game) (row col : Int)
    (h1 : countLine g (PLAYER_STONES g.current_player) row col 1 0 < 5)
    (h2 : countLine g (PLAYER_STONES g.current_player) row col 0 1 < 5)
    (h3 : countLine g (PLAYER_STONES g.current_player) row col 1 1 < 5)
    (h4 : countLine g (PLAYER_STONES g.current_player) row col 1 (-1) < 5) :
    (check_winner g row col).1 =
      (if g.moves_played = g.size * g.size then
        ({ winner := none, draw := true } : MoveResult)
      else { winner := none, draw := false }) := by
  simp only [check_winner]
  rw [if_neg (by omega), if_neg (by omega), if_neg (by omega), if_neg (by omega)]
  split_ifs <;> rfl

theorem check_winner_draw_or_ongoing_witness :
    (check_winner gFull 0 0).1 =
      (if gFull.moves_played = gFull.size * gFull.size then
        ({ winner := none, draw := true } : MoveResult)
      else { winner := none, draw := false }) :=
  check_winner_draw_or_ongoing gFull 0 0 (by decide) (by decide) (by decide) (by decide)

/-- C6: `check_winner` has no side effects: the state it threads back is
exactly the input state, field by field. -/
theorem check_winner_no_side_effects (g : Game) (row col : Int) :
    (check_winner g row col).2 = g ∧
    (check_winner g row col).2.board = g.board ∧
    (check_winner g row col).2.moves_played = g.moves_played ∧
    (check_winner g row col).2.current_player = g.current_player ∧
    (check_winner g row col).2.size = g.size := by
  have h := check_winner_state g row col
  exact ⟨h, by rw [h], by rw [h], by rw [h], by rw [h]⟩

/-- C8 counterexample: the value `place_stone` returns to the caller is
the bare boolean `false` for an out-of-bounds call and for an occupied
call alike, so the returned value alone does not carry the reason. -/
theorem place_stone_return_value_no_reason :
    ¬ (0 ≤ (-1 : Int) ∧ (-1 : Int) < ((mkGame 5).size : Int) ∧
        0 ≤ (0 : Int) ∧ (0 : Int) < ((mkGame 5).size : Int)) ∧
    (0 ≤ (0 : Int) ∧ (0 : Int) < ((place_stone (mkGame 5) 0 0).1.size : Int) ∧
        0 ≤ (0 : Int) ∧ (0 : Int) < ((place_stone (mkGame 5) 0 0).1.size : Int)) ∧
    boardGet (place_stone (mkGame 5) 0 0).1.board 0 0 ≠ EMPTY ∧
    (place_stone (mkGame 5) (-1) 0).2 = (place_stone (place_stone (mkGame 5) 0 0).1 0 0).2 := by
  decide

/-- C8 (amended): on every failed placement the engine returns `false`
and prints a message; the printed message — not the returned boolean —
distinguishes the out-of-bounds reason from the occupied reason. -/
theorem place_stone_reason_via_message (g : Game) (row col : Int) :
    ((place_stone g row col).2 = false ↔ (place_stone_message g row col).isSome = true) ∧
    (place_stone_message g row col = some "位置超出棋盘范围，请重新输入。" ↔
      ¬ (0 ≤ row ∧ row < (g.size : Int) ∧ 0 ≤ col ∧ col < (g.size : Int))) ∧
    (place_stone_message g row col = some "该位置已经有棋子，请重新输入。" ↔
      ((0 ≤ row ∧ row < (g.size : Int) ∧ 0 ≤ col ∧ col < (g.size : Int)) ∧
        boardGet g.board row.toNat col.toNat ≠ EMPTY)) ∧
    ("位置超出棋盘范围，请重新输入。" : String) ≠ "该位置已经有棋子，请重新输入。" := by
  have hmsgne : ("位置超出棋盘范围，请重新输入。" : String) ≠ "该位置已经有棋子，请重新输入。" := by
    decide
  by_cases hb : 0 ≤ row ∧ row < (g.size : Int) ∧ 0 ≤ col ∧ col < (g.size : Int)
  · by_cases he : boardGet g.board row.toNat col.toNat = EMPTY
    · rw [place_stone_ok g row col hb he, place_stone_message_ok g row col hb he]
      refine ⟨by simp, ?_, ?_, hmsgne⟩
      · simp only [reduceCtorEq, false_iff]
        exact not_not_intro hb
      · simp only [reduceCtorEq, false_iff, not_and, not_not]
        intro
        exact he
    · rw [place_stone_occupied g row col hb he, place_stone_message_occupied g row col hb he]
      refine ⟨by simp, ?_, ?_, hmsgne⟩
      · simp only [Option.some.injEq]
        constructor
        · intro h
          exact absurd h hmsgne.symm
        · intro h
          exact absurd hb h
      · simp only [Option.some.injEq, true_iff]
        exact ⟨hb, he⟩
  · rw [place_stone_oob g row col hb, place_stone_message_oob g row col hb]
    refine ⟨by simp, ?_, ?_, hmsgne⟩
    · simp only [Option.some.injEq, true_iff]
      exact hb
    · simp only [Option.some.injEq]
      constructor
      · intro h
        exact absurd h hmsgne
      · rintro ⟨hb', -⟩
        exact absurd hb' hb

/-- C1: `check_winner` returns a win for the current player exactly when
one of the four axes `(1,0), (0,1), (1,1), (1,-1)` (examined in that
fixed order, returning on the first qualifying axis) has a total of at
least 5, where an axis total is 1 for the placed cell plus the lengths
of the two runs of consecutive current-marker cells extending in the
positive and negative directions, each run stopping at the first
out-of-bounds or non-matching cell. -/
theorem check_winner_axes_characterization (g : Game) (row col : Int) :
    ((check_winner g row col).1.winner = some g.current_player ∧
      (check_winner g row col).1.draw = false) ↔
    ∃ dr dc : Int,
      ((dr, dc) = ((1 : Int), (0 : Int)) ∨ (dr, dc) = (0, 1) ∨
        (dr, dc) = (1, 1) ∨ (dr, dc) = (1, -1)) ∧
      ∃ kp kn : Nat,
        IsRun g (PLAYER_STONES g.current_player) row col dr dc kp ∧
        IsRun g (PLAYER_STONES g.current_player) row col (-dr) (-dc) kn ∧
        5 ≤ 1 + kp + kn := by
  rw [check_winner_win_counts]
  constructor
  · intro h
    rcases h with h | h | h | h
    · exact ⟨1, 0, Or.inl rfl,
        (countLine_ge_iff_runs g _ row col 1 0 (by decide)).mp h⟩
    · exact ⟨0, 1, Or.inr (Or.inl rfl),
        (countLine_ge_iff_runs g _ row col 0 1 (by decide)).mp h⟩
    · exact ⟨1, 1, Or.inr (Or.inr (Or.inl rfl)),
        (countLine_ge_iff_runs g _ row col 1 1 (by decide)).mp h⟩
    · exact ⟨1, -1, Or.inr (Or.inr (Or.inr rfl)),
        (countLine_ge_iff_runs g _ row col 1 (-1) (by decide)).mp h⟩
  · rintro ⟨dr, dc, hmem, kp, kn, hp, hn, h5⟩
    rcases hmem with h | h | h | h <;>
      (rw [Prod.mk.injEq] at h; obtain ⟨rfl, rfl⟩ := h)
    · exact Or.inl
        ((countLine_ge_iff_runs g _ row col 1 0 (by decide)).mpr ⟨kp, kn, hp, hn, h5⟩)
    · exact Or.inr (Or.inl
        ((countLine_ge_iff_runs g _ row col 0 1 (by decide)).mpr ⟨kp, kn, hp, hn, h5⟩))
    · exact Or.inr (Or.inr (Or.inl
        ((countLine_ge_iff_runs g _ row col 1 1 (by decide)).mpr ⟨kp, kn, hp, hn, h5⟩)))
    · exact Or.inr (Or.inr (Or.inr
        ((countLine_ge_iff_runs g _ row col 1 (-1) (by decide)).mpr ⟨kp, kn, hp, hn, h5⟩)))

/-- C4: `moves_played` equals the number of non-empty cells in the fresh
game, and the equality is preserved by every engine operation (placement
whether it succeeds or fails, outcome checking, turn switching,
rendering), hence holds in every reachable state. -/
theorem occupancy_invariant (g : Game) (h : Reachable g) :
    g.moves_played = countStones g.board := by
  induction h with
  | init size =>
    show (mkGame size).moves_played = countStones (mkGame size).board
    rw [show (mkGame size).moves_played = 0 from rfl,
      show (mkGame size).board = create_board size from rfl,
      countStones_create_board]
  | place g row col hg ih =>
    by_cases hb : 0 ≤ row ∧ row < (g.size : Int) ∧ 0 ≤ col ∧ col < (g.size : Int)
    · by_cases he : boardGet g.board row.toNat col.toNat = EMPTY
      · rw [place_stone_ok g row col hb he]
        show g.moves_played + 1 = countStones
          (setCell g.board row.toNat col.toNat (PLAYER_STONES g.current_player))
        rw [countStones_setCell g.board row.toNat col.toNat
          (PLAYER_STONES g.current_player) he (PLAYER_STONES_ne_EMPTY g.current_player), ih]
      · rw [place_stone_occupied g row col hb he]
        exact ih
    · rw [place_stone_oob g row col hb]
      exact ih
  | switch g hg ih => exact ih
  | check g row col hg ih => rw [check_winner_state]; exact ih
  | render g hg ih => exact ih

theorem occupancy_invariant_witness :
    (place_stone (mkGame 3) 0 0).1.moves_played =
      countStones (place_stone (mkGame 3) 0 0).1.board :=
  occupancy_invariant (place_stone (mkGame 3) 0 0).1
    (Reachable.place (mkGame 3) 0 0 (Reachable.init 3))

/-- C7 counterexample: `gBlockedPlusFive` contains exactly four
consecutive black stones `(0,0)..(0,3)` along the axis `(0,1)` with both
extensions blocked (the left end is off the board and the right end
holds the opponent's marker), the placed cell `(0,0)` lies on that line,
and yet `check_winner` returns a win for black, because a different axis
(the vertical one) carries five stones through the placed cell. -/
theorem blocked_four_win_counterexample :
    (∀ j : Nat, j < 4 →
      matchStep gBlockedPlusFive (PLAYER_STONES gBlockedPlusFive.current_player)
        (0 + 0 * (j : Int)) (0 + 1 * (j : Int)) = true) ∧
    ¬ (0 ≤ (0 - 1 : Int)) ∧
    boardGet gBlockedPlusFive.board 0 4 = "O" ∧
    PLAYER_STONES gBlockedPlusFive.current_player = "X" ∧
    ("O" : String) ≠ "X" ∧
    (check_winner gBlockedPlusFive 0 0).1.winner = some gBlockedPlusFive.current_player := by
  decide

/-- C7 (amended): a line of exactly four consecutive current-marker
cells along one of the four axes, with both extensions blocked (out of
bounds or not the marker), makes that axis total exactly 4, so it never
qualifies for a win; `check_winner` can return a win for that player
only by way of a different axis through the placed cell. -/
theorem blocked_four_line_never_qualifies (g : Game) (row col r0 c0 dr dc : Int) (i : Nat)
    (hd : (dr, dc) = ((1 : Int), (0 : Int)) ∨ (dr, dc) = (0, 1) ∨
      (dr, dc) = (1, 1) ∨ (dr, dc) = (1, -1))
    (hfour : ∀ j : Nat, j < 4 →
      matchStep g (PLAYER_STONES g.current_player) (r0 + dr * j) (c0 + dc * j) = true)
    (hlow : matchStep g (PLAYER_STONES g.current_player) (r0 - dr) (c0 - dc) = false)
    (hhigh : matchStep g (PLAYER_STONES g.current_player) (r0 + dr * 4) (c0 + dc * 4) = false)
    (hi : i < 4) (hrow : row = r0 + dr * i) (hcol : col = c0 + dc * i) :
    countLine g (PLAYER_STONES g.current_player) row col dr dc = 4 ∧
    ((check_winner g row col).1.winner = some g.current_player →
      ∃ dr' dc' : Int,
        ((dr', dc') = ((1 : Int), (0 : Int)) ∨ (dr', dc') = (0, 1) ∨
          (dr', dc') = (1, 1) ∨ (dr', dc') = (1, -1)) ∧
        (dr', dc') ≠ (dr, dc) ∧
        5 ≤ countLine g (PLAYER_STONES g.current_player) row col dr' dc') := by
  have hdp : isStepDir dr dc := by
    rcases hd with h | h | h | h <;>
      (rw [Prod.mk.injEq] at h; obtain ⟨rfl, rfl⟩ := h; decide)
  have hpos : IsRun g (PLAYER_STONES g.current_player) row col dr dc (3 - i) := by
    constructor
    · intro j hj1 hjk
      unfold MatchAt
      have e1 : row + dr * (j : Int) = r0 + dr * ((i + j : Nat) : Int) := by
        rw [hrow]; push_cast; ring
      have e2 : col + dc * (j : Int) = c0 + dc * ((i + j : Nat) : Int) := by
        rw [hcol]; push_cast; ring
      rw [e1, e2]
      exact hfour (i + j) (by omega)
    · unfold MatchAt
      have c1 : ((3 - i + 1 : Nat) : Int) = 4 - (i : Int) := by omega
      have e1 : row + dr * ((3 - i + 1 : Nat) : Int) = r0 + dr * 4 := by
        rw [c1, hrow]; ring
      have e2 : col + dc * ((3 - i + 1 : Nat) : Int) = c0 + dc * 4 := by
        rw [c1, hcol]; ring
      rw [e1, e2, hhigh]
      simp
  have hneg : IsRun g (PLAYER_STONES g.current_player) row col (-dr) (-dc) i := by
    constructor
    · intro j hj1 hjk
      unfold MatchAt
      have c1 : ((i - j : Nat) : Int) = (i : Int) - j := by omega
      have e1 : row + -dr * (j : Int) = r0 + dr * ((i - j : Nat) : Int) := by
        rw [c1, hrow]; ring
      have e2 : col + -dc * (j : Int) = c0 + dc * ((i - j : Nat) : Int) := by
        rw [c1, hcol]; ring
      rw [e1, e2]
      exact hfour (i - j) (by omega)
    · unfold MatchAt
      have e1 : row + -dr * ((i + 1 : Nat) : Int) = r0 - dr := by
        rw [hrow]; push_cast; ring
      have e2 : col + -dc * ((i + 1 : Nat) : Int) = c0 - dc := by
        rw [hcol]; push_cast; ring
      rw [e1, e2, hlow]
      simp
  have hcount : countLine g (PLAYER_STONES g.current_player) row col dr dc = 4 := by
    rw [countLine_eq_runs g (PLAYER_STONES g.current_player) row col dr dc (3 - i) i
      hdp hpos hneg]
    omega
  refine ⟨hcount, ?_⟩
  intro hwin
  have hdisj := check_winner_winner_some g row col g.current_player hwin
  rcases hd with hD | hD | hD | hD <;>
      (rw [Prod.mk.injEq] at hD; obtain ⟨rfl, rfl⟩ := hD) <;>
    rcases hdisj with h5 | h5 | h5 | h5 <;>
    first
      | (rw [hcount] at h5; omega)
      | exact ⟨1, 0, Or.inl rfl, by decide, h5⟩
      | exact ⟨0, 1, Or.inr (Or.inl rfl), by decide, h5⟩
      | exact ⟨1, 1, Or.inr (Or.inr (Or.inl rfl)), by decide, h5⟩
      | exact ⟨1, -1, Or.inr (Or.inr (Or.inr rfl)), by decide, h5⟩

theorem blocked_four_line_never_qualifies_witness :
    countLine gBlockedFour (PLAYER_STONES gBlockedFour.current_player) 0 3 0 1 = 4 ∧
    ((check_winner gBlockedFour 0 3).1.winner = some gBlockedFour.current_player →
      ∃ dr' dc' : Int,
        ((dr', dc') = ((1 : Int), (0 : Int)) ∨ (dr', dc') = (0, 1) ∨
          (dr', dc') = (1, 1) ∨ (dr', dc') = (1, -1)) ∧
        (dr', dc') ≠ ((0 : Int), (1 : Int)) ∧
        5 ≤ countLine gBlockedFour (PLAYER_STONES gBlockedFour.current_player) 0 3 dr' dc') :=
  blocked_four_line_never_qualifies gBlockedFour 0 3 0 0 0 1 3
    (Or.inr (Or.inl rfl)) (by decide) (by decide) (by decide) (by decide)
    (by decide) (by decide)

/-- C9 counterexample: calling `check_winner` with the out-of-bounds
coordinate `(-1, 0)` on a board with four black stones down column 0
gives an axis count of 5 (not 1) for the vertical axis — the scan steps
from the out-of-bounds start back onto the board — and even reports a
win. -/
theorem oob_axis_count_not_one :
    ¬ (0 ≤ (-1 : Int)) ∧
    countLine gColumnFour (PLAYER_STONES gColumnFour.current_player) (-1) 0 1 0 = 5 ∧
    countLine gColumnFour (PLAYER_STONES gColumnFour.current_player) (-1) 0 1 0 ≠ 1 ∧
    (check_winner gColumnFour (-1) 0).1.winner = some gColumnFour.current_player := by
  decide

/-- C9 (amended): `check_winner` is total for arbitrary integer
coordinates: every board read in the directional scan is guarded by a
bounds test (the loop guard is false whenever the stepped cell is out of
bounds, before any read matters), and the scan terminates — its value is
already stable at fuel `size + 1`.  When `(row, col)` is out of bounds
an axis count still starts at 1 but may exceed 1, since stepping from
`(row, col)` can land on in-bounds matching cells. -/
theorem check_winner_scan_total (g : Game) (stone : String) (row col dr dc : Int)
    (hdir : isStepDir dr dc) (F : Nat) (hF : g.size + 1 ≤ F) :
    scanDir g stone dr dc F row col = scanDir g stone dr dc (g.size + 1) row col ∧
    (∀ r c : Int, ¬ (0 ≤ r ∧ r < (g.size : Int) ∧ 0 ≤ c ∧ c < (g.size : Int)) →
      matchStep g stone r c = false) := by
  constructor
  · obtain ⟨k, hk, hrun⟩ := run_exists g stone row col dr dc hdir
    rw [scanDir_eq_of_run g stone dr dc k row col F hrun (by omega),
      scanDir_eq_of_run g stone dr dc k row col (g.size + 1) hrun (by omega)]
  · intro r c hb
    rw [← Bool.not_eq_true, matchStep_iff]
    rintro ⟨hb', -⟩
    exact hb hb'

theorem check_winner_scan_total_witness :
    scanDir gColumnFour "X" 1 0 50 (-1) 0 =
      scanDir gColumnFour "X" 1 0 (gColumnFour.size + 1) (-1) 0 ∧
    (∀ r c : Int,
      ¬ (0 ≤ r ∧ r < (gColumnFour.size : Int) ∧ 0 ≤ c ∧ c < (gColumnFour.size : Int)) →
      matchStep gColumnFour "X" r c = false) :=
  check_winner_scan_total gColumnFour "X" (-1) 0 1 0 (by decide) 50 (by decide)

/-- C10: `check_winner` never reads the placed cell itself — overwriting
the cell at `(row, col)` with any value does not change the result — and
consequently there are boards where the placed cell is empty yet four
adjacent current-player stones along an axis through it produce a win
for the current player (`gGapRow` at `(0, 2)`). -/
theorem check_winner_ignores_placed_cell (g : Game) (row col : Int) (v : String)
    (hrow : 0 ≤ row) (hcol : 0 ≤ col) :
    (check_winner { g with board := setCell g.board row.toNat col.toNat v } row col).1 =
      (check_winner g row col).1 ∧
    boardGet gGapRow.board 0 2 = EMPTY ∧
    (check_winner gGapRow 0 2).1.winner = some gGapRow.current_player := by
  refine ⟨?_, by decide, by decide⟩
  have e1 := countLine_setCell g (PLAYER_STONES g.current_player) v row col 1 0
    (by decide) hrow hcol
  have e2 := countLine_setCell g (PLAYER_STONES g.current_player) v row col 0 1
    (by decide) hrow hcol
  have e3 := countLine_setCell g (PLAYER_STONES g.current_player) v row col 1 1
    (by decide) hrow hcol
  have e4 := countLine_setCell g (PLAYER_STONES g.current_player) v row col 1 (-1)
    (by decide) hrow hcol
  simp only [check_winner]
  rw [e1, e2, e3, e4]
  split_ifs <;> rfl

theorem check_winner_ignores_placed_cell_witness :
    (check_winner { mkGame 3 with
        board := setCell (mkGame 3).board (Int.toNat 1) (Int.toNat 1) "O" } 1 1).1 =
      (check_winner (mkGame 3) 1 1).1 ∧
    boardGet gGapRow.board 0 2 = EMPTY ∧
    (check_winner gGapRow 0 2).1.winner = some gGapRow.current_player :=
  check_winner_ignores_placed_cell (mkGame 3) 1 1 "O" (by decide) (by decide)

end Gomoku
